import Mathlib

/-!
Verification development for the p01 transaction-log example: a shallow
embedding of the mock-data generator, the resilient line parser, the
tolerant loader and the aggregation strategies, together with theorems
settling the specification claims.

Text lines are modelled as lists of characters (Rust str slices).
Rust f64 values are modelled by the FloatVal type below: NaN, signed
infinity, and finite values represented as exact rationals.  The claims
settled here depend only on parse success or failure, on non-finiteness,
and on both aggregation strategies applying the same addition in the same
order, none of which is affected by IEEE rounding of finite values.
-/

/-- Lines of text are lists of characters. -/
abbrev Line := List Char

/-- Whitespace test modelling the characters Rust's str::trim removes on
the ASCII range (the generator and the claims use only ASCII input). -/
def isWsp (c : Char) : Bool :=
  c = ' ' || c = '\t' || c = '\n' || c = '\r' || c = '\x0b' || c = '\x0c'

/-- Model of Rust str::trim: drop leading and trailing whitespace. -/
def trim (cs : Line) : Line :=
  ((cs.dropWhile isWsp).reverse.dropWhile isWsp).reverse

/-- Model of Rust str::split(sep).collect::<Vec<_>>(): the fields between
occurrences of the separator, empty fields included; a string with no
separator yields one field. -/
def splitOn (sep : Char) : Line → List Line
  | [] => [[]]
  | c :: t =>
    match splitOn sep t with
    | [] => [[c]]
    | h :: rt => if c = sep then [] :: h :: rt else (c :: h) :: rt

/-- The ten decimal digit characters. -/
def digits10 : List Char := ['0', '1', '2', '3', '4', '5', '6', '7', '8', '9']

/-- Numeric value of a decimal digit character. -/
def digitVal (c : Char) : Nat := c.toNat - 48

/-- Value of a string of decimal digits, most significant first. -/
def digitsToNat (ds : List Char) : Nat :=
  ds.foldl (fun n c => 10 * n + digitVal c) 0

/-- Fuel-driven decimal rendering of a natural number, accumulating digits
on the right; models the digit loop of Rust's integer Display. -/
def natDigitsAux : Nat → Nat → List Char → List Char
  | 0, _, acc => acc
  | fuel + 1, n, acc =>
    if n < 10 then Nat.digitChar n :: acc
    else natDigitsAux fuel (n / 10) (Nat.digitChar (n % 10) :: acc)

/-- Decimal digits of a natural number (no leading zeros, and 0 renders
as the single digit 0), as rendered by Rust's integer Display. -/
def natDigits (n : Nat) : List Char := natDigitsAux (n + 1) n []

/-- Zero padding to a given width, as Rust's 0-width format flag: shorter
renderings are left-padded with zeros, longer ones kept whole. -/
def zeroPad (w : Nat) (ds : List Char) : List Char :=
  List.replicate (w - ds.length) '0' ++ ds

/-- Two-digit zero-padded rendering of a number below 100, as Rust's 02
format; the inner mod keeps the function total on all naturals. -/
def pad2 (n : Nat) : List Char :=
  [Nat.digitChar (n / 10 % 10), Nat.digitChar (n % 10)]

/-- Model of a Rust f64 as far as the claims observe it: NaN, an infinity
with a sign (true meaning negative), or a finite value carried as the
exact rational read from the text, IEEE rounding being irrelevant to the
claims settled here. -/
inductive FloatVal where
  | nan : FloatVal
  | inf : Bool → FloatVal
  | finite : ℚ → FloatVal
deriving DecidableEq

/-- Sign handling of Rust f64 parsing: an optional leading plus or minus. -/
def stripSign (cs : Line) : Bool × Line :=
  match cs with
  | [] => (false, [])
  | c :: t =>
    if c = '+' then (false, t)
    else if c = '-' then (true, t)
    else (false, c :: t)

/-- Fraction part of Rust f64 parsing: digits after an optional dot. -/
def splitFrac (cs : Line) : Line × Line :=
  match cs with
  | [] => ([], [])
  | c :: t => if c = '.' then t.span Char.isDigit else ([], cs)

/-- Power of ten with an integer exponent, as an exact rational. -/
def pow10 (e : ℤ) : ℚ :=
  if 0 ≤ e then ((10 ^ e.toNat : ℕ) : ℚ) else 1 / ((10 ^ (-e).toNat : ℕ) : ℚ)

/-- Number part of the grammar Rust's f64 FromStr accepts: integer digits,
an optional dot with fraction digits (at least one digit between the two
groups), then an optional exponent marker with optional sign and at least
one digit, consuming the whole input.  The value is returned as the exact
rational the digits denote. -/
def parseNumber (cs : Line) : Option ℚ :=
  let p1 := cs.span Char.isDigit
  let p2 := splitFrac p1.2
  if p1.1.isEmpty && p2.1.isEmpty then none
  else
    let mant : ℚ :=
      (digitsToNat p1.1 : ℚ) + (digitsToNat p2.1 : ℚ) / (10 : ℚ) ^ p2.1.length
    match p2.2 with
    | [] => some mant
    | e :: t =>
      if e = 'e' ∨ e = 'E' then
        let s := stripSign t
        let p3 := s.2.span Char.isDigit
        if p3.1.isEmpty || !p3.2.isEmpty then none
        else
          let ex : ℤ := (digitsToNat p3.1 : ℤ)
          some (mant * pow10 (if s.1 then -ex else ex))
      else none

/-- Model of Rust str::parse::<f64>: an optional sign, then the words inf,
infinity or nan compared ASCII-case-insensitively, else the decimal-or-
scientific number grammar; anything else is rejected. -/
def float_parse (s : Line) : Option FloatVal :=
  let p := stripSign s
  let low := p.2.map Char.toLower
  if low = "inf".data ∨ low = "infinity".data then some (FloatVal.inf p.1)
  else if low = "nan".data then some FloatVal.nan
  else
    match parseNumber p.2 with
    | some q => some (FloatVal.finite (if p.1 then -q else q))
    | none => none

/-- Addition of modelled f64 values: NaN propagates, opposite infinities
give NaN, an infinity absorbs finite values, finite values add exactly. -/
def fadd : FloatVal → FloatVal → FloatVal
  | FloatVal.nan, _ => FloatVal.nan
  | _, FloatVal.nan => FloatVal.nan
  | FloatVal.inf s, FloatVal.inf t => if s = t then FloatVal.inf s else FloatVal.nan
  | FloatVal.inf s, FloatVal.finite _ => FloatVal.inf s
  | FloatVal.finite _, FloatVal.inf t => FloatVal.inf t
  | FloatVal.finite a, FloatVal.finite b => FloatVal.finite (a + b)

/-- Errors of the line parser, mirroring the three error strings built in
the source: the not-enough-fields message for fewer than 4 fields, the
malformed-record message carrying the field count for more than 4, and
the propagated amount-parse failure. -/
inductive ParseError where
  | notEnoughFields : ParseError
  | malformed : Nat → ParseError
  | invalidAmount : ParseError
deriving DecidableEq

/-- Record type of the source (struct ClientData): the four parsed fields
of a transaction line. -/
structure ClientData where
  id : Line
  from_id : Line
  to_id : Line
  amount : FloatVal
deriving DecidableEq

deriving instance DecidableEq for Except

/-- Model of parse_line: split on the pipe, fail on fewer than 4 fields,
fail with the count on more than 4, else trim each field and parse the
fourth as an f64, propagating its failure. -/
def parse_line (line : Line) : Except ParseError ClientData :=
  let parts := splitOn '|' line
  if parts.length < 4 then Except.error ParseError.notEnoughFields
  else if parts.length = 4 then
    match float_parse (trim (parts.getD 3 [])) with
    | some v =>
      Except.ok ⟨trim (parts.getD 0 []), trim (parts.getD 1 []),
                 trim (parts.getD 2 []), v⟩
    | none => Except.error ParseError.invalidAmount
  else Except.error (ParseError.malformed parts.length)

/-- Diagnostic emitted for a skipped line: the 1-based line number printed
by the warning, the raw line, and the parse error. -/
abbrev Diag := Nat × Line × ParseError

/-- Loop body of open_file over the enumerated stream of line reads: a
read failure aborts with the I/O error, index 0 is skipped unconditionally,
parsed records are appended in order, parse failures become diagnostics
and processing continues. -/
def ingest : Nat → List (Except Unit Line) → Except Unit (List ClientData × List Diag)
  | _, [] => Except.ok ([], [])
  | n, r :: rest =>
    match r with
    | Except.error e => Except.error e
    | Except.ok line =>
      if n = 0 then ingest (n + 1) rest
      else
        match parse_line line with
        | Except.ok rec => (ingest (n + 1) rest).map fun rd => (rec :: rd.1, rd.2)
        | Except.error pe =>
          (ingest (n + 1) rest).map fun rd => (rd.1, (n + 1, line, pe) :: rd.2)

/-- Model of open_file: the source is either an open failure or the stream
of per-line read results; an open failure is returned as the error, else
the enumerated ingestion loop runs from index 0. -/
def open_file (source : Except Unit (List (Except Unit Line))) :
    Except Unit (List ClientData × List Diag) :=
  match source with
  | Except.error e => Except.error e
  | Except.ok lines => ingest 0 lines

/-- Per-record random draws consumed by one generator iteration: the two
account numbers drawn from 1000000..9999999, the amount carried as its
two-decimal rendering in hundredths (the model draws the rendered value
directly, since the claims observe only the emitted text), and the
corruption draw from 0..999999. -/
structure RandDraw where
  fromNum : Nat
  toNum : Nat
  amountHundredths : Nat
  corruptDraw : Nat
deriving DecidableEq

/-- Rendering of the id field: the TXN prefix and the zero-padded
10-digit record counter. -/
def idStr (rc : Nat) : Line := 'T' :: 'X' :: 'N' :: zeroPad 10 (natDigits rc)

/-- Rendering of an account field: the ACC prefix and the zero-padded
8-digit account number. -/
def accStr (n : Nat) : Line := 'A' :: 'C' :: 'C' :: zeroPad 8 (natDigits n)

/-- Rendering of the amount field with two decimal digits, from the value
in hundredths. -/
def amountStr (v : Nat) : Line := natDigits (v / 100) ++ '.' :: pad2 (v % 100)

/-- One record line with an explicit delimiter between the two account
fields, as the format string of the generator builds it (no newline; the
byte accounting adds one for it). -/
def mkLineWith (rc : Nat) (d : RandDraw) (delim : Char) : Line :=
  idStr rc ++ '|' :: (accStr d.fromNum ++ delim :: (accStr d.toNum ++ '|' :: amountStr d.amountHundredths))

/-- One record line as the generator emits it: the delimiter between the
account fields is the lowercase letter l exactly when the corruption draw
from 0..999999 equals 0, the hard-coded 1-in-1,000,000 test of the
source, and the pipe otherwise. -/
def mkLine (rc : Nat) (d : RandDraw) : Line :=
  mkLineWith rc d (if d.corruptDraw = 0 then 'l' else '|')

/-- Generator loop: while the written byte count is below the target,
emit a line from the next draw, add its length plus one newline byte, and
bump the record counter and, on a corruption draw of 0, the malformed
counter.  Recursion is over the supply of draws, so a model run also
stops when the draws run out; the emitted lines and counters are faithful
to the source loop on every iteration it performs. -/
def genLoop (target : Nat) : Nat → Nat → Nat → List RandDraw → List Line × Nat × Nat
  | _, rc, mf, [] => ([], rc, mf)
  | wb, rc, mf, d :: rest =>
    if wb < target then
      let line := mkLine rc d
      let mf2 := if d.corruptDraw = 0 then mf + 1 else mf
      let r := genLoop target (wb + (line.length + 1)) (rc + 1) mf2 rest
      (line :: r.1, r.2)
    else ([], rc, mf)

/-- Header line the generator writes before the loop; its bytes are not
counted toward the target, matching the source. -/
def headerLine : Line := "id|from_id|to_id|amount".data

/-- Model of generate_mock_data: the size parameter is in gigabytes and
is multiplied by 1024 cubed, the corruption test is the hard-coded draw
inside mkLine, and the success value of the function is the unit value;
the record and malformed counters exist only in the loop state, surfaced
by the source solely through console printing. -/
def generate_mock_data (target_size_gb : Nat) (rng : List RandDraw) : List Line × Unit :=
  (headerLine :: (genLoop (target_size_gb * 1024 * 1024 * 1024) 0 0 0 rng).1, ())

/-- Follows the spec's words (section 6): the statistics a generation run
returns on success, the count of records written and the count of
intentionally malformed records. -/
structure GenerationStats where
  records : Nat
  malformed : Nat
deriving DecidableEq

/-- Follows the spec's words: generator loop with the target in bytes and
an explicit corruption threshold (corrupt when the 0..999999 draw is
below it, so the threshold over 1000000 is the corruption probability). -/
def specLoop (target threshold : Nat) : Nat → Nat → Nat → List RandDraw → List Line × GenerationStats
  | _, rc, mf, [] => ([], ⟨rc, mf⟩)
  | wb, rc, mf, d :: rest =>
    if wb < target then
      let corrupt := d.corruptDraw < threshold
      let line := mkLineWith rc d (if corrupt then 'l' else '|')
      let mf2 := if corrupt then mf + 1 else mf
      let r := specLoop target threshold (wb + (line.length + 1)) (rc + 1) mf2 rest
      (line :: r.1, r.2)
    else ([], ⟨rc, mf⟩)

/-- Follows the spec's words: generate(sink, target_size_bytes,
corruption_probability) returning GenerationStats on success, for
comparison with the source's generate_mock_data. -/
def generate_spec (target_bytes threshold : Nat) (rng : List RandDraw) : List Line × GenerationStats :=
  let r := specLoop target_bytes threshold 0 0 0 rng
  (headerLine :: r.1, r.2)

/-- Model of analyze_greedy: a single pass with a mutable running sum and
counter, folded left to right over the records. -/
def analyze_greedy (records : List ClientData) : FloatVal × Nat :=
  records.foldl (fun acc r => (fadd acc.1 r.amount, acc.2 + 1)) (FloatVal.finite 0, 0)

/-- Model of analyze_functional: map each record to its amount, sum the
resulting iterator (Rust's f64 Sum is a left fold from 0.0), and pair the
sum with the length of the slice. -/
def analyze_functional (records : List ClientData) : FloatVal × Nat :=
  ((records.map (fun r => r.amount)).foldl fadd (FloatVal.finite 0), records.length)

/-! ### Character and list helper lemmas -/

lemma dropWhile_eq_self_of {p : Char → Bool} {cs : Line}
    (h : ∀ c ∈ cs, p c = false) : cs.dropWhile p = cs := by
  cases cs with
  | nil => rfl
  | cons c t =>
    rw [List.dropWhile_cons, h c (List.mem_cons_self c t)]
    simp

lemma trim_eq_self {cs : Line} (h : ∀ c ∈ cs, isWsp c = false) : trim cs = cs := by
  unfold trim
  rw [dropWhile_eq_self_of h,
      dropWhile_eq_self_of (fun c hc => h c (List.mem_reverse.mp hc)),
      List.reverse_reverse]

lemma takeWhile_eq_self_of {p : Char → Bool} : ∀ {l : Line},
    (∀ c ∈ l, p c = true) → l.takeWhile p = l := by
  intro l
  induction l with
  | nil => intro _; rfl
  | cons c t ih =>
    intro h
    rw [List.takeWhile_cons, h c (List.mem_cons_self c t)]
    simp only [if_true]
    rw [ih (fun x hx => h x (List.mem_cons_of_mem c hx))]

lemma dropWhile_eq_nil_of {p : Char → Bool} : ∀ {l : Line},
    (∀ c ∈ l, p c = true) → l.dropWhile p = [] := by
  intro l
  induction l with
  | nil => intro _; rfl
  | cons c t ih =>
    intro h
    rw [List.dropWhile_cons, h c (List.mem_cons_self c t)]
    simp only [if_true]
    exact ih (fun x hx => h x (List.mem_cons_of_mem c hx))

lemma span_all {p : Char → Bool} {l : Line} (h : ∀ c ∈ l, p c = true) :
    l.span p = (l, []) := by
  rw [List.span_eq_take_drop, takeWhile_eq_self_of h, dropWhile_eq_nil_of h]

lemma takeWhile_append_of {p : Char → Bool} {xs : Line} {y : Char} (ys : Line)
    (hx : ∀ c ∈ xs, p c = true) (hy : p y = false) :
    (xs ++ y :: ys).takeWhile p = xs := by
  induction xs with
  | nil => simp [List.takeWhile_cons, hy]
  | cons a t ih =>
    have ha := hx a (List.mem_cons_self a t)
    simp [List.takeWhile_cons, ha, ih (fun c hc => hx c (List.mem_cons_of_mem a hc))]

lemma dropWhile_append_of {p : Char → Bool} {xs : Line} {y : Char} (ys : Line)
    (hx : ∀ c ∈ xs, p c = true) (hy : p y = false) :
    (xs ++ y :: ys).dropWhile p = y :: ys := by
  induction xs with
  | nil => simp [List.dropWhile_cons, hy]
  | cons a t ih =>
    have ha := hx a (List.mem_cons_self a t)
    simp [List.dropWhile_cons, ha, ih (fun c hc => hx c (List.mem_cons_of_mem a hc))]

lemma span_append_of {p : Char → Bool} {xs : Line} {y : Char} (ys : Line)
    (hx : ∀ c ∈ xs, p c = true) (hy : p y = false) :
    (xs ++ y :: ys).span p = (xs, y :: ys) := by
  rw [List.span_eq_take_drop, takeWhile_append_of ys hx hy, dropWhile_append_of ys hx hy]

lemma splitOn_ne_nil (sep : Char) (cs : Line) : splitOn sep cs ≠ [] := by
  induction cs with
  | nil => simp [splitOn]
  | cons c t ih =>
    rcases hsp : splitOn sep t with _ | ⟨h, rt⟩
    · exact absurd hsp ih
    · by_cases hc : c = sep <;> simp [splitOn, hsp, hc]

lemma splitOn_no_sep {sep : Char} : ∀ {cs : Line},
    (∀ c ∈ cs, c ≠ sep) → splitOn sep cs = [cs] := by
  intro cs
  induction cs with
  | nil => intro _; rfl
  | cons c t ih =>
    intro h
    have hc : c ≠ sep := h c (List.mem_cons_self c t)
    have ht := ih (fun x hx => h x (List.mem_cons_of_mem c hx))
    simp [splitOn, ht, hc]

lemma splitOn_append {sep : Char} : ∀ {a : Line} (b : Line),
    (∀ c ∈ a, c ≠ sep) → splitOn sep (a ++ sep :: b) = a :: splitOn sep b := by
  intro a
  induction a with
  | nil =>
    intro b _
    rcases hsp : splitOn sep b with _ | ⟨h, rt⟩
    · exact absurd hsp (splitOn_ne_nil sep b)
    · simp [splitOn, hsp]
  | cons c t ih =>
    intro b ha
    have hc : c ≠ sep := ha c (List.mem_cons_self c t)
    have ht := ih b (fun x hx => ha x (List.mem_cons_of_mem c hx))
    simp [splitOn, ht, hc]

/-! ### Digit rendering lemmas -/

lemma digits10_facts : ∀ c ∈ digits10,
    c.isDigit = true ∧ c ≠ '|' ∧ isWsp c = false ∧ c ≠ '+' ∧ c ≠ '-' ∧
    Char.toLower c = c ∧ c ≠ 'i' ∧ c ≠ 'n' := by decide

lemma digitChar_mem_digits10 : ∀ k, k < 10 → Nat.digitChar k ∈ digits10 := by decide

lemma digitVal_digitChar : ∀ k, k < 10 → digitVal (Nat.digitChar k) = k := by decide

lemma natDigitsAux_mem : ∀ (fuel n : Nat) (acc : List Char),
    (∀ c ∈ acc, c ∈ digits10) → ∀ c ∈ natDigitsAux fuel n acc, c ∈ digits10 := by
  intro fuel
  induction fuel with
  | zero => intro n acc hacc; simpa [natDigitsAux] using hacc
  | succ f ih =>
    intro n acc hacc c hc
    simp only [natDigitsAux] at hc
    by_cases hn : n < 10
    · rw [if_pos hn] at hc
      rcases List.mem_cons.mp hc with h | h
      · exact h ▸ digitChar_mem_digits10 n hn
      · exact hacc c h
    · rw [if_neg hn] at hc
      refine ih (n / 10) _ ?_ c hc
      intro x hx
      rcases List.mem_cons.mp hx with h | h
      · exact h ▸ digitChar_mem_digits10 _ (Nat.mod_lt n (by norm_num))
      · exact hacc x h

lemma natDigits_mem (n : Nat) : ∀ c ∈ natDigits n, c ∈ digits10 :=
  natDigitsAux_mem (n + 1) n [] (by simp)

lemma natDigitsAux_le_length : ∀ (fuel n : Nat) (acc : List Char),
    acc.length ≤ (natDigitsAux fuel n acc).length := by
  intro fuel
  induction fuel with
  | zero => intro n acc; simp [natDigitsAux]
  | succ f ih =>
    intro n acc
    simp only [natDigitsAux]
    by_cases hn : n < 10
    · rw [if_pos hn]; simp
    · rw [if_neg hn]
      calc acc.length ≤ (Nat.digitChar (n % 10) :: acc).length := by simp
        _ ≤ _ := ih (n / 10) _

lemma natDigits_ne_nil (n : Nat) : natDigits n ≠ [] := by
  unfold natDigits
  simp only [natDigitsAux]
  by_cases hn : n < 10
  · rw [if_pos hn]; simp
  · rw [if_neg hn]
    intro hnil
    have h := natDigitsAux_le_length n (n / 10) [Nat.digitChar (n % 10)]
    rw [hnil] at h
    simp at h

lemma foldl_digit_shift : ∀ (l : List Char) (s : Nat),
    l.foldl (fun n c => 10 * n + digitVal c) s = s * 10 ^ l.length + digitsToNat l := by
  intro l
  induction l with
  | nil => intro s; simp [digitsToNat]
  | cons c t ih =>
    intro s
    simp only [digitsToNat, List.foldl_cons, List.length_cons]
    rw [ih (10 * s + digitVal c), ih (10 * 0 + digitVal c)]
    ring

lemma natDigitsAux_value : ∀ (fuel n : Nat) (acc : List Char), n < 10 ^ fuel →
    digitsToNat (natDigitsAux fuel n acc) = n * 10 ^ acc.length + digitsToNat acc := by
  intro fuel
  induction fuel with
  | zero =>
    intro n acc h
    have hn : n = 0 := by simpa using h
    subst hn
    simp [natDigitsAux]
  | succ f ih =>
    intro n acc h
    simp only [natDigitsAux]
    by_cases hn : n < 10
    · rw [if_pos hn]
      simp only [digitsToNat, List.foldl_cons]
      rw [foldl_digit_shift, digitVal_digitChar n hn]
      simp only [digitsToNat]
      ring
    · rw [if_neg hn]
      have hdiv : n / 10 < 10 ^ f := by
        rw [Nat.div_lt_iff_lt_mul (by norm_num : (0:Nat) < 10)]
        calc n < 10 ^ (f + 1) := h
          _ = 10 ^ f * 10 := pow_succ 10 f
      rw [ih (n / 10) _ hdiv]
      simp only [digitsToNat, List.foldl_cons, List.length_cons]
      rw [foldl_digit_shift, digitVal_digitChar _ (Nat.mod_lt n (by norm_num))]
      obtain ⟨q, r, hr, rfl⟩ : ∃ q r, r < 10 ∧ n = 10 * q + r :=
        ⟨n / 10, n % 10, Nat.mod_lt n (by norm_num), (Nat.div_add_mod n 10).symm⟩
      rw [Nat.mul_add_div (by norm_num), Nat.div_eq_of_lt hr,
          Nat.mul_add_mod, Nat.mod_eq_of_lt hr, pow_succ]
      simp only [digitsToNat]
      ring

lemma digitsToNat_natDigits (n : Nat) : digitsToNat (natDigits n) = n := by
  have hlt : n < 10 ^ (n + 1) :=
    calc n < 10 ^ n := Nat.lt_pow_self (by norm_num) n
      _ ≤ 10 ^ (n + 1) := Nat.pow_le_pow_right (by norm_num) (Nat.le_succ n)
  have h := natDigitsAux_value (n + 1) n [] hlt
  simpa [natDigits, digitsToNat] using h

lemma pad2_mem (m : Nat) : ∀ c ∈ pad2 m, c ∈ digits10 := by
  intro c hc
  rcases List.mem_cons.mp hc with h | h
  · exact h ▸ digitChar_mem_digits10 _ (Nat.mod_lt _ (by norm_num))
  · rcases List.mem_cons.mp h with h2 | h2
    · exact h2 ▸ digitChar_mem_digits10 _ (Nat.mod_lt _ (by norm_num))
    · simp at h2

lemma digitsToNat_pad2 (m : Nat) (hm : m < 100) : digitsToNat (pad2 m) = m := by
  have h1 : m / 10 < 10 := by omega
  simp only [pad2, digitsToNat, List.foldl_cons, List.foldl_nil]
  rw [Nat.mod_eq_of_lt h1, digitVal_digitChar (m / 10) h1,
      digitVal_digitChar (m % 10) (Nat.mod_lt m (by norm_num))]
  omega

lemma zeroPad_mem {w : Nat} {ds : List Char} (hds : ∀ c ∈ ds, c ∈ digits10) :
    ∀ c ∈ zeroPad w ds, c ∈ digits10 := by
  intro c hc
  rcases List.mem_append.mp hc with h | h
  · rw [List.eq_of_mem_replicate h]; decide
  · exact hds c h

/-! ### Field character lemmas -/

/-- Characters that keep a field intact through splitting and trimming:
not the pipe separator and not whitespace. -/
abbrev okChar (c : Char) : Prop := c ≠ '|' ∧ isWsp c = false

lemma okChar_of_digit {c : Char} (h : c ∈ digits10) : okChar c :=
  ⟨(digits10_facts c h).2.1, (digits10_facts c h).2.2.1⟩

lemma idStr_ok (rc : Nat) : ∀ c ∈ idStr rc, okChar c := by
  intro c hc
  rcases List.mem_cons.mp hc with rfl | hc
  · exact ⟨by decide, by decide⟩
  rcases List.mem_cons.mp hc with rfl | hc
  · exact ⟨by decide, by decide⟩
  rcases List.mem_cons.mp hc with rfl | hc
  · exact ⟨by decide, by decide⟩
  exact okChar_of_digit (zeroPad_mem (natDigits_mem rc) c hc)

lemma accStr_ok (n : Nat) : ∀ c ∈ accStr n, okChar c := by
  intro c hc
  rcases List.mem_cons.mp hc with rfl | hc
  · exact ⟨by decide, by decide⟩
  rcases List.mem_cons.mp hc with rfl | hc
  · exact ⟨by decide, by decide⟩
  rcases List.mem_cons.mp hc with rfl | hc
  · exact ⟨by decide, by decide⟩
  exact okChar_of_digit (zeroPad_mem (natDigits_mem n) c hc)

lemma amountStr_ok (v : Nat) : ∀ c ∈ amountStr v, okChar c := by
  intro c hc
  rcases List.mem_append.mp hc with h | h
  · exact okChar_of_digit (natDigits_mem _ c h)
  · rcases List.mem_cons.mp h with rfl | h
    · exact ⟨by decide, by decide⟩
    · exact okChar_of_digit (pad2_mem _ c h)

lemma mergedField_ok (d : RandDraw) :
    ∀ c ∈ accStr d.fromNum ++ 'l' :: accStr d.toNum, okChar c := by
  intro c hc
  rcases List.mem_append.mp hc with h | h
  · exact accStr_ok _ c h
  · rcases List.mem_cons.mp h with rfl | h
    · exact ⟨by decide, by decide⟩
    · exact accStr_ok _ c h

/-! ### Evaluation of the float parser on generated amount renderings -/

lemma stripSign_no_sign {c : Char} (t : Line) (h1 : c ≠ '+') (h2 : c ≠ '-') :
    stripSign (c :: t) = (false, c :: t) := by
  simp [stripSign, h1, h2]

lemma parseNumber_digits_dot (a b : Line) (ha : a ≠ [])
    (hda : ∀ c ∈ a, c.isDigit = true) (hdb : ∀ c ∈ b, c.isDigit = true) :
    parseNumber (a ++ '.' :: b) =
      some ((digitsToNat a : ℚ) + (digitsToNat b : ℚ) / (10 : ℚ) ^ b.length) := by
  have htake : (a ++ '.' :: b).takeWhile Char.isDigit = a :=
    takeWhile_append_of b hda (by decide)
  have hdrop : (a ++ '.' :: b).dropWhile Char.isDigit = '.' :: b :=
    dropWhile_append_of b hda (by decide)
  have hfrac : splitFrac ('.' :: b) = (b, []) := by
    simp [splitFrac, List.span_eq_take_drop, takeWhile_eq_self_of hdb,
          dropWhile_eq_nil_of hdb]
  have hae : a.isEmpty = false := by
    cases a
    · exact absurd rfl ha
    · rfl
  simp only [parseNumber, List.span_eq_take_drop, htake, hdrop, hfrac, hae]
  simp

lemma float_parse_amountStr (v : Nat) :
    float_parse (amountStr v) = some (FloatVal.finite ((v : ℚ) / 100)) := by
  rcases hnd : natDigits (v / 100) with _ | ⟨c, t⟩
  · exact absurd hnd (natDigits_ne_nil _)
  have hcd : c ∈ digits10 :=
    natDigits_mem (v / 100) c (by rw [hnd]; exact List.mem_cons_self c t)
  obtain ⟨hdig, hpipe, hwsp, hplus, hminus, hlower, hi, hn⟩ := digits10_facts c hcd
  have hshape : amountStr v = c :: (t ++ '.' :: pad2 (v % 100)) := by
    simp [amountStr, hnd]
  have hstrip := stripSign_no_sign (t ++ '.' :: pad2 (v % 100)) hplus hminus
  have hne1 : (c :: (t ++ '.' :: pad2 (v % 100))).map Char.toLower ≠ "inf".data := by
    rw [List.map_cons, hlower, show "inf".data = 'i' :: "nf".data from rfl]
    intro h
    injection h with h1 _
    exact hi h1
  have hne2 : (c :: (t ++ '.' :: pad2 (v % 100))).map Char.toLower ≠ "infinity".data := by
    rw [List.map_cons, hlower, show "infinity".data = 'i' :: "nfinity".data from rfl]
    intro h
    injection h with h1 _
    exact hi h1
  have hne3 : (c :: (t ++ '.' :: pad2 (v % 100))).map Char.toLower ≠ "nan".data := by
    rw [List.map_cons, hlower, show "nan".data = 'n' :: "an".data from rfl]
    intro h
    injection h with h1 _
    exact hn h1
  have hda : ∀ x ∈ c :: t, x.isDigit = true := by
    intro x hx
    exact (digits10_facts x (natDigits_mem (v / 100) x (by rw [hnd]; exact hx))).1
  have hdb : ∀ x ∈ pad2 (v % 100), x.isDigit = true := fun x hx =>
    (digits10_facts x (pad2_mem _ x hx)).1
  have hpn := parseNumber_digits_dot (c :: t) (pad2 (v % 100)) (by simp) hda hdb
  rw [hshape]
  simp only [float_parse, hstrip]
  rw [if_neg (by rintro (h | h); exacts [hne1 h, hne2 h]), if_neg hne3]
  rw [show c :: (t ++ '.' :: pad2 (v % 100)) = (c :: t) ++ '.' :: pad2 (v % 100) from rfl]
  rw [hpn]
  rw [← hnd, digitsToNat_natDigits, digitsToNat_pad2 _ (Nat.mod_lt _ (by norm_num)),
      show (pad2 (v % 100)).length = 2 from rfl]
  have harith : ((v / 100 : ℕ) : ℚ) + ((v % 100 : ℕ) : ℚ) / (10 : ℚ) ^ 2 = (v : ℚ) / 100 := by
    have h : (100 * (v / 100) + v % 100 : ℕ) = v := Nat.div_add_mod v 100
    have h2 : (100 : ℚ) * ((v / 100 : ℕ) : ℚ) + ((v % 100 : ℕ) : ℚ) = (v : ℚ) := by
      exact_mod_cast congrArg (fun x : ℕ => (x : ℚ)) h
    rw [show ((10 : ℚ)) ^ 2 = 100 from by norm_num]
    field_simp
    linarith [h2]
  simp [harith]

/-! ### Splitting the generated lines -/

lemma splitOn_mkLine_good (rc : Nat) (d : RandDraw) :
    splitOn '|' (mkLineWith rc d '|') =
      [idStr rc, accStr d.fromNum, accStr d.toNum, amountStr d.amountHundredths] := by
  unfold mkLineWith
  rw [splitOn_append _ (fun c hc => (idStr_ok rc c hc).1),
      splitOn_append _ (fun c hc => (accStr_ok _ c hc).1),
      splitOn_append _ (fun c hc => (accStr_ok _ c hc).1),
      splitOn_no_sep (fun c hc => (amountStr_ok _ c hc).1)]

lemma splitOn_mkLine_bad (rc : Nat) (d : RandDraw) :
    splitOn '|' (mkLineWith rc d 'l') =
      [idStr rc, accStr d.fromNum ++ 'l' :: accStr d.toNum,
       amountStr d.amountHundredths] := by
  unfold mkLineWith
  rw [splitOn_append _ (fun c hc => (idStr_ok rc c hc).1)]
  rw [show accStr d.fromNum ++ 'l' :: (accStr d.toNum ++ '|' :: amountStr d.amountHundredths) =
        (accStr d.fromNum ++ 'l' :: accStr d.toNum) ++ '|' :: amountStr d.amountHundredths from by
    simp]
  rw [splitOn_append _ (fun c hc => (mergedField_ok d c hc).1),
      splitOn_no_sep (fun c hc => (amountStr_ok _ c hc).1)]

/-! ### Reduction of parse_line on a known split -/

lemma parse_line_four {line i f t a : Line} (h : splitOn '|' line = [i, f, t, a]) :
    parse_line line =
      match float_parse (trim a) with
      | some v => Except.ok ⟨trim i, trim f, trim t, v⟩
      | none => Except.error ParseError.invalidAmount := by
  simp [parse_line, h]

lemma parse_line_short {line : Line} (h : (splitOn '|' line).length < 4) :
    parse_line line = Except.error ParseError.notEnoughFields := by
  simp [parse_line, h]

lemma parse_line_long {line : Line} (h : 4 < (splitOn '|' line).length) :
    parse_line line = Except.error (ParseError.malformed (splitOn '|' line).length) := by
  have h1 : ¬ (splitOn '|' line).length < 4 := by omega
  have h2 : ¬ (splitOn '|' line).length = 4 := by omega
  simp [parse_line, h1, h2]

/-! ### Aggregation helper -/

lemma foldl_pair (records : List ClientData) :
    ∀ (s : FloatVal) (c : Nat),
      records.foldl (fun acc r => (fadd acc.1 r.amount, acc.2 + 1)) (s, c) =
        (records.foldl (fun acc r => fadd acc r.amount) s, c + records.length) := by
  induction records with
  | nil => intro s c; simp
  | cons r t ih =>
    intro s c
    simp only [List.foldl_cons, ih, List.length_cons]
    exact Prod.ext rfl (by omega)

/-! ### Claim theorems -/

/-- C1: for every non-empty collection of Records, the sequential strategy
(analyze_greedy) and the functional map-then-reduce strategy
(analyze_functional) return identical (total, count) pairs, both computing
the total as the same left-to-right fold of the amounts from zero, with
exact equality. -/
theorem analyze_strategies_agree (records : List ClientData) (_hne : records ≠ []) :
    analyze_greedy records = analyze_functional records := by
  unfold analyze_greedy analyze_functional
  rw [foldl_pair records (FloatVal.finite 0) 0, List.foldl_map]
  simp

/-- Witness for C1 at a concrete two-element collection. -/
theorem analyze_strategies_agree_witness :
    analyze_greedy [⟨[], [], [], FloatVal.finite 1⟩, ⟨[], [], [], FloatVal.finite 2⟩] =
      analyze_functional [⟨[], [], [], FloatVal.finite 1⟩, ⟨[], [], [], FloatVal.finite 2⟩] :=
  analyze_strategies_agree _ (by decide)

/-- C5: every aggregation strategy returns a count equal to the length of
the collection, and each strategy's total is the left fold of exactly the
list of the records' amounts, so no record's contribution is dropped or
duplicated. -/
theorem strategies_count_and_total (records : List ClientData) :
    (analyze_greedy records).2 = records.length ∧
    (analyze_functional records).2 = records.length ∧
    (analyze_greedy records).1 =
      (records.map (fun r => r.amount)).foldl fadd (FloatVal.finite 0) ∧
    (analyze_functional records).1 =
      (records.map (fun r => r.amount)).foldl fadd (FloatVal.finite 0) := by
  refine ⟨?_, rfl, ?_, rfl⟩
  · unfold analyze_greedy
    rw [foldl_pair]
    simp
  · unfold analyze_greedy
    rw [foldl_pair, List.foldl_map]

/-- C7: each aggregation strategy is deterministic: two runs on equal
(unmodified) collections return identical results; the embedded strategies
are pure functions of the record list alone. -/
theorem analyze_deterministic (r1 r2 : List ClientData) (h : r1 = r2) :
    analyze_greedy r1 = analyze_greedy r2 ∧
    analyze_functional r1 = analyze_functional r2 := by
  subst h
  exact ⟨rfl, rfl⟩

/-- Witness for C7 at a concrete collection. -/
theorem analyze_deterministic_witness :
    analyze_greedy [⟨[], [], [], FloatVal.finite 3⟩] =
      analyze_greedy [⟨[], [], [], FloatVal.finite 3⟩] ∧
    analyze_functional [⟨[], [], [], FloatVal.finite 3⟩] =
      analyze_functional [⟨[], [], [], FloatVal.finite 3⟩] :=
  analyze_deterministic _ _ rfl

/-- C9: on the empty collection both strategies return the zero total and
zero count, so they are total on empty input as well. -/
theorem analyze_empty_collection :
    analyze_greedy [] = (FloatVal.finite 0, 0) ∧
    analyze_functional [] = (FloatVal.finite 0, 0) :=
  ⟨rfl, rfl⟩

/-- C3: every record line emitted by the generator that was not selected
for corruption parses into a Record whose four fields are exactly the
generated id, from and to renderings and the rational read back from the
two-decimal amount rendering; every line selected for corruption fails to
parse with the not-enough-fields arity error. -/
theorem generate_parse_roundtrip :
    (∀ rc d, d.corruptDraw ≠ 0 →
        parse_line (mkLine rc d) =
          Except.ok ⟨idStr rc, accStr d.fromNum, accStr d.toNum,
                     FloatVal.finite ((d.amountHundredths : ℚ) / 100)⟩) ∧
    (∀ rc d, d.corruptDraw = 0 →
        parse_line (mkLine rc d) = Except.error ParseError.notEnoughFields) := by
  constructor
  · intro rc d hd
    have hline : mkLine rc d = mkLineWith rc d '|' := by simp [mkLine, hd]
    rw [hline, parse_line_four (splitOn_mkLine_good rc d)]
    rw [trim_eq_self (fun c hc => (amountStr_ok _ c hc).2), float_parse_amountStr,
        trim_eq_self (fun c hc => (idStr_ok _ c hc).2),
        trim_eq_self (fun c hc => (accStr_ok _ c hc).2),
        trim_eq_self (fun c hc => (accStr_ok _ c hc).2)]
  · intro rc d hd
    have hline : mkLine rc d = mkLineWith rc d 'l' := by simp [mkLine, hd]
    rw [hline]
    exact parse_line_short (by rw [splitOn_mkLine_bad]; simp)

/-- Witness for C3 at concrete draws, uncorrupted and corrupted. -/
theorem generate_parse_roundtrip_witness :
    parse_line (mkLine 0 ⟨1234567, 7654321, 12345, 5⟩) =
      Except.ok ⟨idStr 0, accStr 1234567, accStr 7654321,
                 FloatVal.finite ((12345 : ℚ) / 100)⟩ ∧
    parse_line (mkLine 3 ⟨1234567, 7654321, 12345, 0⟩) =
      Except.error ParseError.notEnoughFields :=
  ⟨generate_parse_roundtrip.1 0 ⟨1234567, 7654321, 12345, 5⟩ (by decide),
   generate_parse_roundtrip.2 3 ⟨1234567, 7654321, 12345, 0⟩ rfl⟩

/-- C10: every corrupted line emitted by the generator splits on the pipe
into exactly three fields, because the lowercase l merges the two account
fields, which never contain a pipe; parsing therefore always fails with
the not-enough-fields error, never with an extra-field shape. -/
theorem corrupted_line_three_fields (rc : Nat) (d : RandDraw)
    (h : d.corruptDraw = 0) :
    (splitOn '|' (mkLine rc d)).length = 3 ∧
    parse_line (mkLine rc d) = Except.error ParseError.notEnoughFields := by
  have hline : mkLine rc d = mkLineWith rc d 'l' := by simp [mkLine, h]
  rw [hline]
  constructor
  · rw [splitOn_mkLine_bad]
    rfl
  · exact parse_line_short (by rw [splitOn_mkLine_bad]; simp)

/-- Witness for C10 at a concrete corrupted draw. -/
theorem corrupted_line_three_fields_witness :
    (splitOn '|' (mkLine 1 ⟨2345678, 8765432, 500, 0⟩)).length = 3 ∧
    parse_line (mkLine 1 ⟨2345678, 8765432, 500, 0⟩) =
      Except.error ParseError.notEnoughFields :=
  corrupted_line_three_fields 1 ⟨2345678, 8765432, 500, 0⟩ rfl

/-! ### Ingestion lemmas -/

lemma ingest_cons_zero (line : Line) (rest : List (Except Unit Line)) :
    ingest 0 (Except.ok line :: rest) = ingest 1 rest := by
  simp [ingest]

lemma ingest_cons_ok (n : Nat) (hn : n ≠ 0) (line : Line)
    (rest : List (Except Unit Line)) :
    ingest n (Except.ok line :: rest) =
      match parse_line line with
      | Except.ok r => (ingest (n + 1) rest).map fun rd => (r :: rd.1, rd.2)
      | Except.error pe =>
        (ingest (n + 1) rest).map fun rd => (rd.1, (n + 1, line, pe) :: rd.2) := by
  simp [ingest, hn]

lemma ingest_cons_err (n : Nat) (rest : List (Except Unit Line)) :
    ingest n (Except.error () :: rest) = Except.error () := by
  simp [ingest]

lemma ingest_map_ok : ∀ (body : List Line) (n : Nat), n ≠ 0 →
    ∃ diags,
      ingest n (body.map Except.ok) =
        Except.ok (body.filterMap (fun l => (parse_line l).toOption), diags) ∧
      diags.length =
        (body.filter (fun l => ((parse_line l).toOption).isNone)).length := by
  intro body
  induction body with
  | nil => intro n hn; exact ⟨[], rfl, rfl⟩
  | cons l rest ih =>
    intro n hn
    obtain ⟨d, hd, hlen⟩ := ih (n + 1) (Nat.succ_ne_zero n)
    rw [List.map_cons]
    cases hp : parse_line l with
    | ok r =>
      refine ⟨d, ?_, ?_⟩
      · rw [ingest_cons_ok n hn, hp, hd]
        simp [List.filterMap_cons, hp, Except.map, Except.toOption]
      · rw [hlen]
        simp [List.filter_cons, hp, Except.toOption]
    | error pe =>
      refine ⟨(n + 1, l, pe) :: d, ?_, ?_⟩
      · rw [ingest_cons_ok n hn, hp, hd]
        simp [List.filterMap_cons, hp, Except.map, Except.toOption]
      · simp [List.filter_cons, hp, hlen, Except.toOption]

lemma ingest_read_error : ∀ (pre : List Line) (n : Nat)
    (post : List (Except Unit Line)),
    ingest n (pre.map Except.ok ++ Except.error () :: post) = Except.error () := by
  intro pre
  induction pre with
  | nil => intro n post; simp [ingest]
  | cons l rest ih =>
    intro n post
    rw [List.map_cons, List.cons_append]
    by_cases hn : n = 0
    · subst hn
      rw [ingest_cons_zero]
      exact ih 1 post
    · rw [ingest_cons_ok n hn]
      cases parse_line l <;> simp [ih (n + 1) post, Except.map]

/-- C2: for any file of a header line followed by a body, with every read
succeeding, open_file skips the header unconditionally, returns exactly
the records of the lines that parse, in their original relative order,
emits one diagnostic per failing line, and returns no error; only an open
failure or a read failure makes it return an error. -/
theorem open_file_tolerant_ingestion :
    (∀ (header : Line) (body : List Line),
        ∃ diags,
          open_file (Except.ok (Except.ok header :: body.map Except.ok)) =
            Except.ok (body.filterMap (fun l => (parse_line l).toOption), diags) ∧
          diags.length =
            (body.filter (fun l => ((parse_line l).toOption).isNone)).length) ∧
    open_file (Except.error ()) = Except.error () ∧
    (∀ (pre : List Line) (post : List (Except Unit Line)),
        open_file (Except.ok (pre.map Except.ok ++ Except.error () :: post)) =
          Except.error ()) := by
  refine ⟨?_, rfl, ?_⟩
  · intro header body
    obtain ⟨d, hd, hlen⟩ := ingest_map_ok body 1 one_ne_zero
    refine ⟨d, ?_, hlen⟩
    have hof : open_file (Except.ok (Except.ok header :: body.map Except.ok)) =
        ingest 0 (Except.ok header :: body.map Except.ok) := rfl
    rw [hof, ingest_cons_zero, hd]
  · intro pre post
    have hof : open_file (Except.ok (pre.map Except.ok ++ Except.error () :: post)) =
        ingest 0 (pre.map Except.ok ++ Except.error () :: post) := rfl
    rw [hof]
    exact ingest_read_error pre 0 post

/-- C4: parse_line fails with a field-count error for any split width
other than exactly 4; on 4 fields it trims each field and fails with the
invalid-amount error exactly when the trimmed fourth field does not parse
under the f64 grammar; the two concrete probes behave as stated. -/
theorem parse_line_error_classification :
    (∀ line, (splitOn '|' line).length ≠ 4 →
        parse_line line = Except.error ParseError.notEnoughFields ∨
        parse_line line =
          Except.error (ParseError.malformed (splitOn '|' line).length)) ∧
    (∀ line i f t a, splitOn '|' line = [i, f, t, a] →
        (parse_line line = Except.error ParseError.invalidAmount ↔
          float_parse (trim a) = none) ∧
        ∀ v, float_parse (trim a) = some v →
          parse_line line = Except.ok ⟨trim i, trim f, trim t, v⟩) ∧
    parse_line "A|B|C".data = Except.error ParseError.notEnoughFields ∧
    parse_line "A|B|C|not-a-number".data = Except.error ParseError.invalidAmount := by
  refine ⟨?_, ?_, by decide, by decide⟩
  · intro line hlen
    by_cases h4 : (splitOn '|' line).length < 4
    · exact Or.inl (parse_line_short h4)
    · exact Or.inr (parse_line_long (by omega))
  · intro line i f t a h
    have hred := parse_line_four h
    refine ⟨⟨?_, ?_⟩, ?_⟩
    · intro hpl
      cases hfp : float_parse (trim a) with
      | none => rfl
      | some v =>
        rw [hred, hfp] at hpl
        simp at hpl
    · intro hfp
      rw [hred, hfp]
    · intro v hfp
      rw [hred, hfp]

/-- Witness for C4 at concrete inputs: a two-field line for the count
branch and a well-formed line for the success branch. -/
theorem parse_line_error_classification_witness :
    (parse_line "A|B".data = Except.error ParseError.notEnoughFields ∨
      parse_line "A|B".data =
        Except.error (ParseError.malformed (splitOn '|' "A|B".data).length)) ∧
    parse_line "A|B|C| inf ".data =
      Except.ok ⟨trim "A".data, trim "B".data, trim "C".data, FloatVal.inf false⟩ :=
  ⟨parse_line_error_classification.1 "A|B".data (by decide),
   (parse_line_error_classification.2.1 "A|B|C| inf ".data
      "A".data "B".data "C".data " inf ".data (by decide)).2
      (FloatVal.inf false) (by decide)⟩

/-! ### Exponent form of the number grammar -/

lemma parseNumber_digits_exp (a b : Line) (ha : a ≠ [])
    (hda : ∀ c ∈ a, c.isDigit = true) (hdb : ∀ c ∈ b, c.isDigit = true)
    (hb : b ≠ []) :
    parseNumber (a ++ 'e' :: b) =
      some ((digitsToNat a : ℚ) * pow10 (digitsToNat b : ℤ)) := by
  have htake : (a ++ 'e' :: b).takeWhile Char.isDigit = a :=
    takeWhile_append_of b hda (by decide)
  have hdrop : (a ++ 'e' :: b).dropWhile Char.isDigit = 'e' :: b :=
    dropWhile_append_of b hda (by decide)
  have hfrac : splitFrac ('e' :: b) = ([], 'e' :: b) := by
    simp [splitFrac]
  have hae : a.isEmpty = false := by
    cases a
    · exact absurd rfl ha
    · rfl
  obtain ⟨c, t, rfl⟩ : ∃ c t, b = c :: t := by
    cases b with
    | nil => exact absurd rfl hb
    | cons c t => exact ⟨c, t, rfl⟩
  have hc : c ∈ c :: t := List.mem_cons_self c t
  have hsign : stripSign (c :: t) = (false, c :: t) := by
    have hcd : c.isDigit = true := hdb c hc
    refine stripSign_no_sign t ?_ ?_ <;>
      (intro hcc; rw [hcc] at hcd; exact absurd hcd (by decide))
  have hbtake : (c :: t).takeWhile Char.isDigit = c :: t := takeWhile_eq_self_of hdb
  have hbdrop : (c :: t).dropWhile Char.isDigit = [] := dropWhile_eq_nil_of hdb
  simp only [parseNumber, List.span_eq_take_drop, htake, hdrop, hfrac, hae,
             hsign, hbtake, hbdrop]
  simp [digitsToNat]

/-- C8: the amount field accepts everything Rust's f64 parsing accepts,
not only plain decimals: inf parses to positive infinity, NaN parses to
NaN, and the scientific form 1e5 parses to the finite value 100000, so
these 4-field lines produce Records rather than invalid-amount errors. -/
theorem parse_line_accepts_rust_float_grammar :
    parse_line "A|B|C|inf".data =
      Except.ok ⟨"A".data, "B".data, "C".data, FloatVal.inf false⟩ ∧
    parse_line "A|B|C|NaN".data =
      Except.ok ⟨"A".data, "B".data, "C".data, FloatVal.nan⟩ ∧
    parse_line "A|B|C|1e5".data =
      Except.ok ⟨"A".data, "B".data, "C".data, FloatVal.finite 100000⟩ := by
  refine ⟨by decide, by decide, ?_⟩
  have hsplit : splitOn '|' "A|B|C|1e5".data =
      ["A".data, "B".data, "C".data, "1e5".data] := by decide
  rw [parse_line_four hsplit]
  have htr : trim "1e5".data = ['1'] ++ 'e' :: ['5'] := by decide
  rw [htr]
  have hs : stripSign (['1'] ++ 'e' :: ['5']) = (false, ['1'] ++ 'e' :: ['5']) := by
    decide
  have hfp : float_parse (['1'] ++ 'e' :: ['5']) =
      some (FloatVal.finite ((digitsToNat ['1'] : ℚ) * pow10 (digitsToNat ['5'] : ℤ))) := by
    simp only [float_parse, hs]
    rw [if_neg (by decide), if_neg (by decide),
        parseNumber_digits_exp ['1'] ['5'] (by decide) (by decide) (by decide) (by decide)]
    rfl
  rw [hfp]
  have hval : (digitsToNat ['1'] : ℚ) * pow10 (digitsToNat ['5'] : ℤ) = 100000 := by
    have h1 : digitsToNat ['1'] = 1 := by decide
    have h5 : digitsToNat ['5'] = 5 := by decide
    rw [h1, h5]
    norm_num [pow10]
    decide
  rw [hval]
  decide

/-- C6 counterexample: with the nominal size argument 1 and two available
draws, the source generator treats 1 as gigabytes and keeps writing (two
records emitted, three file lines with the header), while the spec
interface with target 1 byte stops after one record; the source's success
value is the unit value and carries no statistics, while the spec
interface returns GenerationStats; and the draw value 3 is not corrupted
by the source (hard-coded 1-in-1,000,000 test) although the spec
interface with an explicit probability of one half corrupts it. -/
theorem generate_interface_counterexample :
    (generate_mock_data 1 [⟨1111111, 2222222, 12345, 3⟩, ⟨3333333, 4444444, 500, 7⟩]).2
        = () ∧
    (generate_mock_data 1 [⟨1111111, 2222222, 12345, 3⟩, ⟨3333333, 4444444, 500, 7⟩]).1.length
        = 3 ∧
    (generate_spec 1 500000 [⟨1111111, 2222222, 12345, 3⟩, ⟨3333333, 4444444, 500, 7⟩]).1.length
        = 2 ∧
    (generate_spec 1 500000 [⟨1111111, 2222222, 12345, 3⟩, ⟨3333333, 4444444, 500, 7⟩]).2
        = ⟨1, 1⟩ ∧
    (splitOn '|' (mkLine 0 ⟨1111111, 2222222, 12345, 3⟩)).length = 4 :=
  ⟨rfl, by decide, by decide, by decide, by decide⟩

/-- C6 amended: generate_mock_data takes its size parameter in gigabytes
(multiplied by 1024 cubed internally), corrupts a line exactly when its
draw from 0..999999 equals 0 (the hard-coded 1-in-1,000,000 test, not a
parameter), maintains the record counter only in the loop state (the
counter equals the initial value plus the number of emitted lines, and is
surfaced solely through console printing), and on success returns the
unit value, not GenerationStats. -/
theorem generate_interface_amended :
    (∀ gb rng,
        generate_mock_data gb rng =
          (headerLine :: (genLoop (gb * 1024 * 1024 * 1024) 0 0 0 rng).1, ())) ∧
    (∀ rc d, (splitOn '|' (mkLine rc d)).length = 3 ↔ d.corruptDraw = 0) ∧
    (∀ target wb rc mf rng,
        (genLoop target wb rc mf rng).2.1 =
          rc + (genLoop target wb rc mf rng).1.length) := by
  refine ⟨fun gb rng => rfl, ?_, ?_⟩
  · intro rc d
    constructor
    · intro h3
      by_contra hne
      have hgood : mkLine rc d = mkLineWith rc d '|' := by simp [mkLine, hne]
      rw [hgood, splitOn_mkLine_good] at h3
      simp at h3
    · intro h0
      have hbad : mkLine rc d = mkLineWith rc d 'l' := by simp [mkLine, h0]
      rw [hbad, splitOn_mkLine_bad]
      rfl
  · intro target wb rc mf rng
    induction rng generalizing wb rc mf with
    | nil => simp [genLoop]
    | cons d rest ih =>
      simp only [genLoop]
      by_cases hwb : wb < target
      · rw [if_pos hwb]
        simp only [List.length_cons]
        rw [ih]
        omega
      · rw [if_neg hwb]
        simp
